import Mathlib

/-!
Verification of the undo-history subsystem of `src/undo.c` (remacs slice).

The development embeds, as executable Lean functions, the two entry points
this spec slice exposes:

* `truncate_undo_list` (src/undo.c:63-190): the two-threshold truncation
  engine that walks a buffer's undo log, accumulates a byte-cost estimate
  `size_so_far`, optionally delegates to `undo-outer-limit-function`, and
  rewrites the tail of the log.
* `record_property_change` (src/undo.c:35-56): the recording entry point for
  property changes.

Lisp objects are embedded as the inductive `LObj`; an undo log is an `LObj`
chain of cons cells (possibly improper, possibly the disabled sentinel `t`).
The pointer-walk of the C code (`prev` / `next` / `last_boundary`) is
rendered functionally: the walk produces the list of already-walked elements
(the cells up to `prev`) plus the remaining chain `next`, and the final
`XSETCDR (last_boundary, Qnil)` becomes reattaching a nil tail with `toL`.
-/

namespace Undo

/-- `sizeof (struct Lisp_Cons)` on the reference 64-bit platform: two
tagged words.  The claims under verification are structural; none depends
on the numeric value, only on how the C code combines these constants. -/
def sizeof_Lisp_Cons : Nat := 16

/-- `sizeof (struct Lisp_String)`: header of a Lisp string object on the
reference 64-bit platform. -/
def sizeof_Lisp_String : Nat := 32

/-- Shallow embedding of the Lisp objects an undo list can contain:
`Qnil` (also the undo boundary marker), `Qt` (the disabled sentinel),
integers, symbols, strings, and cons cells. -/
inductive LObj : Type where
  | nil : LObj
  | t : LObj
  | num : Int → LObj
  | sym : String → LObj
  | str : String → LObj
  | cons : LObj → LObj → LObj
deriving DecidableEq, Repr

/-- `SCHARS` of an embedded string. -/
def SCHARS (s : String) : Nat := s.length

/-- Cost added to `size_so_far` for one walked element and its chain link,
exactly as computed twice in the C source (src/undo.c:108-116 and
src/undo.c:164-172): one `struct Lisp_Cons` for the chain link,
plus, if the element itself is a cons, one more `struct Lisp_Cons`,
plus, if that cons's car is a string, `sizeof (struct Lisp_String) - 1
+ SCHARS (...)`. -/
def entrySize (elt : LObj) : Nat :=
  sizeof_Lisp_Cons +
    match elt with
    | .cons car _ =>
      sizeof_Lisp_Cons +
        match car with
        | .str s => (sizeof_Lisp_String - 1) + SCHARS s
        | _ => 0
    | _ => 0

/-- Reattach a walked-off run of elements in front of a tail: `toL p t`
is the chain whose cells hold the elements of `p` in order and whose
remainder is `t`.  This is how the functional embedding expresses the
C code's in-place `XSETCDR (last_boundary, Qnil)` surgery. -/
def toL : List LObj → LObj → LObj
  | [], tl => tl
  | x :: xs, tl => LObj.cons x (toL xs tl)

/-- Phase A of `truncate_undo_list` (src/undo.c:86-95): if the first element
is an undo boundary, skip past it, adding its cell cost.  Returns the
accumulated size, the elements stepped over, and the remaining chain. -/
def phaseA (l : LObj) : Nat × List LObj × LObj :=
  match l with
  | .cons LObj.nil rest => (sizeof_Lisp_Cons, [LObj.nil], rest)
  | x => (0, [], x)

/-- Phase B of `truncate_undo_list` (src/undo.c:103-121): walk forward while
the current element is a cons-cell entry with non-nil car (i.e. until the
next boundary or the end of the chain), accumulating each element's cost.
Returns the accumulated size, the elements walked, and the remaining
chain `next`. -/
def phaseB (size : Nat) (tl : LObj) : Nat × List LObj × LObj :=
  match tl with
  | .cons elt rest =>
    if elt = LObj.nil then (size, [], LObj.cons elt rest)
    else
      let r := phaseB (size + entrySize elt) rest
      (r.1, elt :: r.2.1, r.2.2)
  | x => (size, [], x)

/-- Phases A and B together: the measurement of the most recent command
group performed before the outer-limit check (src/undo.c:86-121). -/
def measureFirstGroup (l : LObj) : Nat × List LObj × LObj :=
  ((phaseB (phaseA l).1 (phaseA l).2.2).1,
   (phaseA l).2.1 ++ (phaseB (phaseA l).1 (phaseA l).2.2).2.1,
   (phaseB (phaseA l).1 (phaseA l).2.2).2.2)

/-- Outcome of the Phase C walk (src/undo.c:146-177), rendered functionally.
`nilEnd`: the walk ran off the nil end of the chain (`NILP (next)` at
src/undo.c:180), so the log is left unchanged.  `cutPrev`: the walk broke
out (or hit a non-nil, non-cons tail) with `last_boundary` still holding
the value it had when the current recursion began — the caller cuts at its
own candidate.  `keep k`: the cut happened further along; of the chain seen
by the current recursion, exactly `k` survives. -/
inductive CutRes : Type where
  | nilEnd : CutRes
  | cutPrev : CutRes
  | keep : LObj → CutRes
deriving DecidableEq, Repr

/-- Resolution of a Phase C outcome across a boundary element that the walk
stepped past.  The C code set `last_boundary = prev` at this boundary
(src/undo.c:159), i.e. the candidate cut point is the cell just *before*
the boundary, so a later `cutPrev` resolves to keeping nothing from the
boundary onwards. -/
def afterBoundary : CutRes → CutRes
  | .nilEnd => .nilEnd
  | .cutPrev => .keep LObj.nil
  | .keep k => .keep (.cons LObj.nil k)

/-- Resolution of a Phase C outcome across an ordinary (non-boundary)
element: the element is retained iff the cut happened further along;
`cutPrev` keeps propagating to the candidate in force. -/
def afterRecord (elt : LObj) : CutRes → CutRes
  | .nilEnd => .nilEnd
  | .cutPrev => .cutPrev
  | .keep k => .keep (.cons elt k)

/-- Phase C of `truncate_undo_list` (src/undo.c:146-177).  `size` is
`size_so_far` on entry.  At a boundary element (src/undo.c:155-162): if
`size_so_far > undo_strong_limit`, break with the candidate currently in
force (`cutPrev`); otherwise the candidate becomes the cell before this
boundary (`last_boundary = prev`, src/undo.c:159), and if
`size_so_far > undo_limit` the walk breaks there (`keep LObj.nil`: nothing
from this boundary onwards survives).  Every element stepped past adds its
`entrySize` (src/undo.c:164-172).  A non-nil, non-cons tail ends the walk
with the candidate in force (`CONSP (next)` fails, and the resolution at
src/undo.c:180-187 cuts at `last_boundary`). -/
def phaseC (strong soft : Int) (size : Nat) (tl : LObj) : CutRes :=
  match tl with
  | .nil => .nilEnd
  | .cons elt rest =>
    if elt = LObj.nil then
      if (size : Int) > strong then .cutPrev
      else if (size : Int) > soft then .keep LObj.nil
      else afterBoundary (phaseC strong soft (size + entrySize elt) rest)
    else afterRecord elt (phaseC strong soft (size + entrySize elt) rest)
  | _ => .cutPrev

/-- The threshold configuration read by `truncate_undo_list`:
`undo_limit` and `undo_strong_limit` are `EMACS_INT` variables;
`undo_outer_limit` is a Lisp value, represented by `some n` exactly when
`INTEGERP (Vundo_outer_limit)` holds with `XINT` value `n`;
`undo_outer_limit_function` is `some f` exactly when
`Vundo_outer_limit_function` is non-nil, `f s` telling whether `call1`
on argument `s` returns non-nil. -/
structure UndoConfig where
  undo_limit : Int
  undo_strong_limit : Int
  undo_outer_limit : Option Int
  undo_outer_limit_function : Option (Int → Bool)

/-- The outer-limit check of src/undo.c:123-140: if `undo_outer_limit` is an
integer that `size_so_far` strictly exceeds and the callback is configured,
the callback is invoked with exactly `size_so_far`.  Returns the argument
the callback was invoked with (if it was) and whether it returned non-nil
(the early-return condition of src/undo.c:133-139). -/
def outerCallback (cfg : UndoConfig) (size : Nat) : Option Int × Bool :=
  match cfg.undo_outer_limit, cfg.undo_outer_limit_function with
  | some lim, some f =>
    if (size : Int) > lim then (some (size : Int), f (size : Int)) else (none, false)
  | _, _ => (none, false)

/-- The resolution step of src/undo.c:142-143 and src/undo.c:179-187.
`size` and `next` come out of Phase B.  If `next` is nil the whole list was
scanned and stays unchanged (src/undo.c:180-181).  If `next` is a cons, the
candidate pre-set at src/undo.c:142-143 is the cell just walked
(`last_boundary = prev`), so a Phase C outcome of `cutPrev` keeps exactly
the measured elements `p`; `keep k` keeps `p` followed by `k`; `nilEnd`
leaves the log unchanged.  If `next` is a non-nil non-cons tail, no
candidate was ever set and the log is cleared to nil
(src/undo.c:186-187). -/
def resolveTrunc (cfg : UndoConfig) (list : LObj) (size : Nat) (p : List LObj)
    (next : LObj) : LObj :=
  match next with
  | LObj.nil => list
  | LObj.cons _ _ =>
    (match phaseC cfg.undo_strong_limit cfg.undo_limit size next with
     | CutRes.nilEnd => list
     | CutRes.cutPrev => toL p LObj.nil
     | CutRes.keep k => toL p k)
  | _ => LObj.nil

/-- Result of running the truncation engine on an undo list:
the new undo list, the argument `undo-outer-limit-function` was invoked
with (if it was invoked), and whether the engine took the early return of
src/undo.c:133-139 (in which case it performed no mutation of the log
itself — any further mutation belongs to the callback). -/
structure TruncResult where
  undo_list : LObj
  callback_arg : Option Int
  handled : Bool
deriving DecidableEq, Repr

/-- The non-delegated part of `truncate_undo_list`: measure the first group
(phases A and B), then run Phase C and the resolution of
src/undo.c:142-143 and src/undo.c:179-187. -/
def truncCore (cfg : UndoConfig) (list : LObj) : LObj :=
  resolveTrunc cfg list (measureFirstGroup list).1
    (measureFirstGroup list).2.1 (measureFirstGroup list).2.2

/-- `truncate_undo_list` (src/undo.c:63-190) as a function of the threshold
configuration and the buffer's undo list.  Phases A and B measure the most
recent command group; the outer-limit callback may take over (early return
of src/undo.c:133-139, leaving the log untouched by the engine); otherwise
Phase C picks the cut point and the resolution of src/undo.c:179-187
rewrites the tail. -/
def truncate_undo_list (cfg : UndoConfig) (list : LObj) : TruncResult :=
  { undo_list :=
      if (outerCallback cfg (measureFirstGroup list).1).2 then list
      else truncCore cfg list,
    callback_arg := (outerCallback cfg (measureFirstGroup list).1).1,
    handled := (outerCallback cfg (measureFirstGroup list).1).2 }

/-- The slice of editor state that `record_property_change` and
`truncate_undo_list` touch or read.  Buffers are identified by `Nat`.
`undo_lists i` is buffer `i`'s `undo_list` field; `modiff` / `save_modiff`
are the per-buffer modification counters behind the `MODIFF` and
`SAVE_MODIFF` macros; `gc_inhibit_depth` is the specpdl depth recording the
`inhibit_garbage_collection` scope; `other_fields` stands for every other
per-buffer field (point, text, markers, ...), none of which the undo code
writes. -/
structure EditorState where
  current_buffer : Nat
  undo_lists : Nat → LObj
  modiff : Nat → Int
  save_modiff : Nat → Int
  gc_inhibit_depth : Nat
  other_fields : Nat → Int

/-- Modelled from the spec: `prepare_record` (implemented outside this
slice, declared `extern` at src/undo.c:27) performs "collaborator-required
pre-record bookkeeping"; it does not touch any undo list, so it is the
identity on the modelled state. -/
def prepare_record (st : EditorState) : EditorState := st

/-- Modelled from the spec: the first-change marker record that
`record_first_change` (implemented outside this slice) prepends — a cons
whose car is `t`, letting the save-detection logic find the save
boundary. -/
def firstChangeMarker : LObj := LObj.cons LObj.t LObj.nil

/-- Modelled from the spec: `record_first_change` (implemented outside this
slice) prepends a first-change marker record to the current buffer's undo
list. -/
def record_first_change (st : EditorState) : EditorState :=
  { st with
    undo_lists := fun i =>
      if i = st.current_buffer then
        LObj.cons firstChangeMarker (st.undo_lists st.current_buffer)
      else st.undo_lists i }

/-- The property-change record built at src/undo.c:51-53:
`Fcons (Qnil, Fcons (prop, Fcons (value, Fcons (lbeg, lend))))` with
`lbeg = beg` and `lend = beg + length`. -/
def propertyChangeEntry (beg length : Int) (prop value : LObj) : LObj :=
  LObj.cons LObj.nil
    (LObj.cons prop (LObj.cons value (LObj.cons (LObj.num beg) (LObj.num (beg + length)))))

/-- `record_property_change` (src/undo.c:35-56).  The disabled-sentinel test
at src/undo.c:43-44 reads the undo list of the buffer passed as argument
(`buf = XBUFFER (buffer)`), while the `MODIFF <= SAVE_MODIFF` test at
src/undo.c:48 and the prepend at src/undo.c:54-55 operate on
`current_buffer`. -/
def record_property_change (beg length : Int) (prop value : LObj) (buffer : Nat)
    (st : EditorState) : EditorState :=
  if st.undo_lists buffer = LObj.t then st
  else
    let st1 := prepare_record st
    let st2 :=
      if st1.modiff st1.current_buffer ≤ st1.save_modiff st1.current_buffer then
        record_first_change st1
      else st1
    { st2 with
      undo_lists := fun i =>
        if i = st2.current_buffer then
          LObj.cons (propertyChangeEntry beg length prop value)
            (st2.undo_lists st2.current_buffer)
        else st2.undo_lists i }

/-- Modelled from the spec: `unbind_to (count, Qnil)` rewinding the two
unwind entries pushed at src/undo.c:72-78 — the `inhibit_garbage_collection`
scope is released (the specpdl is cut back to `count`) and the previously
current buffer (saved by `record_unwind_current_buffer`) is restored. -/
def unbind_to (count : Nat) (saved : Nat) (st : EditorState) : EditorState :=
  { st with gc_inhibit_depth := count, current_buffer := saved }

/-- `truncate_undo_list` acting on the full editor state
(src/undo.c:63-190): inhibit garbage collection, record the current buffer
for unwinding, make `b` current, run the engine on `b`'s undo list, and on
*both* exit paths — the early return of src/undo.c:133-139 and normal
completion at src/undo.c:189 — rewind via `unbind_to`.  On the early-return
path the engine writes nothing; otherwise only buffer `b`'s undo list is
rewritten. -/
def truncate_undo_list_state (cfg : UndoConfig) (b : Nat) (st : EditorState) :
    EditorState :=
  let count := st.gc_inhibit_depth
  let st1 := { st with gc_inhibit_depth := st.gc_inhibit_depth + 1 }
  let saved := st1.current_buffer
  let st2 := { st1 with current_buffer := b }
  let r := truncate_undo_list cfg (st2.undo_lists b)
  if r.handled then unbind_to count saved st2
  else
    unbind_to count saved
      { st2 with
        undo_lists := fun i => if i = b then r.undo_list else st2.undo_lists i }

/-- The shape at which phases A/B/C stop walking: either the nil end of the
chain or a cell holding a boundary. -/
def stopsOK (tl : LObj) : Prop := tl = LObj.nil ∨ ∃ r, tl = LObj.cons LObj.nil r

/-- True of a Lisp object that is neither nil nor a cons cell — the tail
shapes on which the walk stops without `NILP (next)` and without ever
having set `last_boundary`. -/
def isAtom : LObj → Bool
  | .nil => false
  | .cons _ _ => false
  | _ => true

/-- Spec-side decomposition of the per-entry cost: the "one link-cell
cost" (the chain cons of the log). -/
def linkCellCost : Nat := sizeof_Lisp_Cons

/-- Spec-side decomposition of the per-entry cost: the cost of the
sub-cell of a composite (cons) entry — the C code charges one
`struct Lisp_Cons` for it (src/undo.c:110-112). -/
def subCellCost : LObj → Nat
  | .cons _ _ => sizeof_Lisp_Cons
  | _ => 0

/-- Spec-side decomposition of the per-entry cost: the cost of an embedded
text payload — the string object charged at
`sizeof (struct Lisp_String) - 1 + SCHARS` (src/undo.c:113-115). -/
def textPayloadCost : LObj → Nat
  | .cons (.str s) _ => (sizeof_Lisp_String - 1) + SCHARS s
  | _ => 0

/-- Thresholds for the C1 evaluation: `undo_limit = 10`,
`undo_strong_limit = 1000`, no outer limit, no callback. -/
def c1Config : UndoConfig :=
  { undo_limit := 10, undo_strong_limit := 1000,
    undo_outer_limit := none, undo_outer_limit_function := none }

/-- Log for the C1 evaluation: one record (cost 16), a boundary, then an
older record.  At the boundary, `size_so_far = 16` exceeds `undo_limit`
but not `undo_strong_limit`. -/
def c1Log : LObj :=
  LObj.cons (LObj.num 1) (LObj.cons LObj.nil (LObj.cons (LObj.num 2) LObj.nil))

/-- Thresholds for the C2 counterexample: `undo_limit = 1`,
`undo_strong_limit = 2`. -/
def c2Config : UndoConfig :=
  { undo_limit := 1, undo_strong_limit := 2,
    undo_outer_limit := none, undo_outer_limit_function := none }

/-- Log for the C2 counterexample: a single command group (one record of
cost 16 > `undo_strong_limit` = 2) followed by no boundary at all, so no
candidate cut point is ever established. -/
def c2Log : LObj := LObj.cons (LObj.num 5) LObj.nil

/-- Thresholds for the C3 witness. -/
def c3Config : UndoConfig :=
  { undo_limit := 20, undo_strong_limit := 5000,
    undo_outer_limit := none, undo_outer_limit_function := none }

/-- Log for the C3 witness: two groups separated by boundaries, large
enough that the first truncation actually cuts. -/
def c3Log : LObj :=
  LObj.cons (LObj.num 1) (LObj.cons (LObj.num 2) (LObj.cons LObj.nil
    (LObj.cons (LObj.num 3) (LObj.cons (LObj.num 4) (LObj.cons LObj.nil
      (LObj.cons (LObj.num 5) LObj.nil))))))

/-- Thresholds for the C4 evaluation (same shape as C1, distinct data). -/
def c4Config : UndoConfig :=
  { undo_limit := 10, undo_strong_limit := 1000,
    undo_outer_limit := none, undo_outer_limit_function := none }

/-- Log for the C4 evaluation. -/
def c4Log : LObj :=
  LObj.cons (LObj.num 3) (LObj.cons LObj.nil (LObj.cons (LObj.num 4) LObj.nil))

/-- Configuration for the C5 witness: outer limit 0 with a callback that
always reports the truncation handled. -/
def c5Config : UndoConfig :=
  { undo_limit := 80000, undo_strong_limit := 120000,
    undo_outer_limit := some 0, undo_outer_limit_function := some (fun _ => true) }

/-- Log for the C5 witness: one record, measured cost 16 > 0. -/
def c5Log : LObj := LObj.cons (LObj.num 7) LObj.nil

/-- Editor state for the C7 witness: every buffer's log disabled. -/
def c7State : EditorState :=
  { current_buffer := 0, undo_lists := fun _ => LObj.t,
    modiff := fun _ => 1, save_modiff := fun _ => 0,
    gc_inhibit_depth := 0, other_fields := fun _ => 0 }

/-- Editor state for the C8 witness: buffer 0 current and enabled, with
`MODIFF <= SAVE_MODIFF` (an unmodified-since-save buffer). -/
def c8State : EditorState :=
  { current_buffer := 0, undo_lists := fun _ => LObj.nil,
    modiff := fun _ => 0, save_modiff := fun _ => 0,
    gc_inhibit_depth := 0, other_fields := fun _ => 0 }

/-- Configuration and state for the C9 witness. -/
def c9Config : UndoConfig :=
  { undo_limit := 10, undo_strong_limit := 1000,
    undo_outer_limit := none, undo_outer_limit_function := none }

/-- Editor state for the C9 witness: buffer 1 current, buffer 0 holds a
log the engine will truncate. -/
def c9State : EditorState :=
  { current_buffer := 1, undo_lists := fun i => if i = 0 then c1Log else LObj.nil,
    modiff := fun _ => 3, save_modiff := fun _ => 2,
    gc_inhibit_depth := 5, other_fields := fun i => i }

/-- Editor state for the C10 witness: buffer 0 current, buffer 1 (the
argument buffer) enabled but not current. -/
def c10State : EditorState :=
  { current_buffer := 0,
    undo_lists := fun i => if i = 1 then LObj.cons (LObj.num 9) LObj.nil else LObj.nil,
    modiff := fun _ => 4, save_modiff := fun _ => 1,
    gc_inhibit_depth := 0, other_fields := fun _ => 0 }

theorem phaseB_stops (s : Nat) (tl : LObj) (h : stopsOK tl) :
    phaseB s tl = (s, [], tl) := by
  rcases h with rfl | ⟨r, rfl⟩ <;> simp [phaseB]

theorem phaseB_next_cons (tl : LObj) :
    ∀ s a b, (phaseB s tl).2.2 = LObj.cons a b → a = LObj.nil := by
  induction tl with
  | cons elt rest ih1 ih2 =>
    intro s a b h
    by_cases he : elt = LObj.nil
    · subst he
      simp [phaseB] at h
      exact h.1.symm
    · simp only [phaseB, if_neg he] at h
      exact ih2 _ _ _ h
  | nil => intro s a b h; simp [phaseB] at h
  | t => intro s a b h; simp [phaseB] at h
  | num n => intro s a b h; simp [phaseB] at h
  | sym s' => intro s a b h; simp [phaseB] at h
  | str s' => intro s a b h; simp [phaseB] at h

theorem phaseB_reconstruct (tl : LObj) :
    ∀ s tl', stopsOK tl' →
      phaseB s (toL (phaseB s tl).2.1 tl') = ((phaseB s tl).1, (phaseB s tl).2.1, tl') := by
  induction tl with
  | cons elt rest ih1 ih2 =>
    intro s tl' h
    by_cases he : elt = LObj.nil
    · subst he
      simp only [phaseB, if_pos rfl, toL]
      exact phaseB_stops s tl' h
    · simp only [phaseB, if_neg he, toL]
      rw [ih2 (s + entrySize elt) tl' h]
  | nil => intro s tl' h; simpa [phaseB, toL] using phaseB_stops s tl' h
  | t => intro s tl' h; simpa [phaseB, toL] using phaseB_stops s tl' h
  | num n => intro s tl' h; simpa [phaseB, toL] using phaseB_stops s tl' h
  | sym s' => intro s tl' h; simpa [phaseB, toL] using phaseB_stops s tl' h
  | str s' => intro s tl' h; simpa [phaseB, toL] using phaseB_stops s tl' h

theorem measure_next_cons (l : LObj) :
    ∀ a b, (measureFirstGroup l).2.2 = LObj.cons a b → a = LObj.nil := by
  intro a b h
  exact phaseB_next_cons (phaseA l).2.2 (phaseA l).1 a b h

theorem measure_reconstruct (l tl' : LObj) (h : stopsOK tl')
    (hc : ∃ a b, (measureFirstGroup l).2.2 = LObj.cons a b) :
    measureFirstGroup (toL (measureFirstGroup l).2.1 tl')
      = ((measureFirstGroup l).1, (measureFirstGroup l).2.1, tl') := by
  match l with
  | LObj.cons elt rest =>
    by_cases he : elt = LObj.nil
    · subst he
      simp only [measureFirstGroup, phaseA, List.append_eq, List.cons_append,
        List.nil_append, toL]
      rw [phaseB_reconstruct rest sizeof_Lisp_Cons tl' h]
    · have hp : phaseA (LObj.cons elt rest) = (0, [], LObj.cons elt rest) := by
        cases elt <;> simp_all [phaseA]
      have hb : (phaseB 0 (LObj.cons elt rest)).2.1
          = elt :: (phaseB (0 + entrySize elt) rest).2.1 := by
        simp [phaseB, if_neg he]
      have ha : phaseA (toL (measureFirstGroup (LObj.cons elt rest)).2.1 tl')
          = (0, [], toL (measureFirstGroup (LObj.cons elt rest)).2.1 tl') := by
        simp only [measureFirstGroup, hp, List.nil_append, hb, toL]
        cases elt <;> simp_all [phaseA]
      simp only [measureFirstGroup, hp, List.nil_append] at *
      rw [ha]
      simp only [List.nil_append]
      rw [phaseB_reconstruct (LObj.cons elt rest) 0 tl' h]
  | LObj.nil =>
    rcases hc with ⟨a, b, hc⟩
    simp [measureFirstGroup, phaseA, phaseB] at hc
  | LObj.t =>
    rcases hc with ⟨a, b, hc⟩
    simp [measureFirstGroup, phaseA, phaseB] at hc
  | LObj.num n =>
    rcases hc with ⟨a, b, hc⟩
    simp [measureFirstGroup, phaseA, phaseB] at hc
  | LObj.sym s' =>
    rcases hc with ⟨a, b, hc⟩
    simp [measureFirstGroup, phaseA, phaseB] at hc
  | LObj.str s' =>
    rcases hc with ⟨a, b, hc⟩
    simp [measureFirstGroup, phaseA, phaseB] at hc

theorem phaseC_keep_stops (strong soft : Int) (size : Nat) (r k : LObj)
    (h : phaseC strong soft size (LObj.cons LObj.nil r) = CutRes.keep k) :
    stopsOK k := by
  simp only [phaseC, if_pos rfl] at h
  by_cases h1 : (size : Int) > strong
  · rw [if_pos h1] at h; exact absurd h (by simp)
  · rw [if_neg h1] at h
    by_cases h2 : (size : Int) > soft
    · rw [if_pos h2] at h
      injection h with h
      exact Or.inl h.symm
    · rw [if_neg h2] at h
      cases hr : phaseC strong soft (size + entrySize LObj.nil) r with
      | nilEnd => rw [hr] at h; exact absurd h (by simp [afterBoundary])
      | cutPrev =>
        rw [hr] at h
        simp only [afterBoundary] at h
        injection h with h
        exact Or.inl h.symm
      | keep k' =>
        rw [hr] at h
        simp only [afterBoundary] at h
        injection h with h
        exact Or.inr ⟨k', h.symm⟩

theorem phaseC_keep_idem (strong soft : Int) (tl : LObj) :
    ∀ size k, phaseC strong soft size tl = CutRes.keep k →
      phaseC strong soft size k = CutRes.nilEnd := by
  induction tl with
  | cons elt rest ih1 ih2 =>
    intro size k h
    by_cases he : elt = LObj.nil
    · subst he
      simp only [phaseC, if_pos rfl] at h
      by_cases h1 : (size : Int) > strong
      · rw [if_pos h1] at h; exact absurd h (by simp)
      · rw [if_neg h1] at h
        by_cases h2 : (size : Int) > soft
        · rw [if_pos h2] at h
          injection h with h
          subst h
          simp [phaseC]
        · rw [if_neg h2] at h
          cases hr : phaseC strong soft (size + entrySize LObj.nil) rest with
          | nilEnd => rw [hr] at h; exact absurd h (by simp [afterBoundary])
          | cutPrev =>
            rw [hr] at h
            simp only [afterBoundary] at h
            injection h with h
            subst h
            simp [phaseC]
          | keep k' =>
            rw [hr] at h
            simp only [afterBoundary] at h
            injection h with h
            subst h
            simp only [phaseC, if_pos rfl, if_neg h1, if_neg h2]
            rw [ih2 _ _ hr]
            rfl
    · simp only [phaseC, if_neg he] at h
      cases hr : phaseC strong soft (size + entrySize elt) rest with
      | nilEnd => rw [hr] at h; exact absurd h (by simp [afterRecord])
      | cutPrev => rw [hr] at h; exact absurd h (by simp [afterRecord])
      | keep k' =>
        rw [hr] at h
        simp only [afterRecord] at h
        injection h with h
        subst h
        simp only [phaseC, if_neg he]
        rw [ih2 _ _ hr]
        rfl
  | nil => intro size k h; simp [phaseC] at h
  | t => intro size k h; simp [phaseC] at h
  | num n => intro size k h; simp [phaseC] at h
  | sym s' => intro size k h; simp [phaseC] at h
  | str s' => intro size k h; simp [phaseC] at h

theorem truncCore_nil (cfg : UndoConfig) : truncCore cfg LObj.nil = LObj.nil := rfl

theorem truncCore_fixed (cfg : UndoConfig) (l : LObj) :
    truncCore cfg (truncCore cfg l) = truncCore cfg l := by
  cases hn : (measureFirstGroup l).2.2 with
  | nil =>
    have hr : truncCore cfg l = l := by
      simp only [truncCore]; rw [hn]; rfl
    rw [hr]; exact hr
  | t =>
    have hr : truncCore cfg l = LObj.nil := by
      simp only [truncCore]; rw [hn]; rfl
    rw [hr]; exact truncCore_nil cfg
  | num n =>
    have hr : truncCore cfg l = LObj.nil := by
      simp only [truncCore]; rw [hn]; rfl
    rw [hr]; exact truncCore_nil cfg
  | sym s' =>
    have hr : truncCore cfg l = LObj.nil := by
      simp only [truncCore]; rw [hn]; rfl
    rw [hr]; exact truncCore_nil cfg
  | str s' =>
    have hr : truncCore cfg l = LObj.nil := by
      simp only [truncCore]; rw [hn]; rfl
    rw [hr]; exact truncCore_nil cfg
  | cons a b =>
    have ha := measure_next_cons l a b hn
    subst ha
    cases hp : phaseC cfg.undo_strong_limit cfg.undo_limit (measureFirstGroup l).1
        (LObj.cons LObj.nil b) with
    | nilEnd =>
      have hr : truncCore cfg l = l := by
        simp only [truncCore]; rw [hn]
        simp only [resolveTrunc]; rw [hp]
      rw [hr]; exact hr
    | cutPrev =>
      have hr : truncCore cfg l = toL (measureFirstGroup l).2.1 LObj.nil := by
        simp only [truncCore]; rw [hn]
        simp only [resolveTrunc]; rw [hp]
      have hm2 := measure_reconstruct l LObj.nil (Or.inl rfl) ⟨LObj.nil, b, hn⟩
      rw [hr]
      simp only [truncCore]; rw [hm2]; rfl
    | keep k =>
      have hr : truncCore cfg l = toL (measureFirstGroup l).2.1 k := by
        simp only [truncCore]; rw [hn]
        simp only [resolveTrunc]; rw [hp]
      rcases phaseC_keep_stops cfg.undo_strong_limit cfg.undo_limit
          (measureFirstGroup l).1 b k hp with hk | ⟨kr, hk⟩
      · subst hk
        have hm2 := measure_reconstruct l LObj.nil (Or.inl rfl) ⟨LObj.nil, b, hn⟩
        rw [hr]
        simp only [truncCore]; rw [hm2]; rfl
      · subst hk
        have hm2 := measure_reconstruct l (LObj.cons LObj.nil kr)
          (Or.inr ⟨kr, rfl⟩) ⟨LObj.nil, b, hn⟩
        have hid := phaseC_keep_idem cfg.undo_strong_limit cfg.undo_limit
          (LObj.cons LObj.nil b) (measureFirstGroup l).1 (LObj.cons LObj.nil kr) hp
        rw [hr]
        simp only [truncCore]; rw [hm2]
        simp only [resolveTrunc]; rw [hid]

theorem phaseA_not_nil_car (elt rest : LObj) (he : elt ≠ LObj.nil) :
    phaseA (LObj.cons elt rest) = (0, [], LObj.cons elt rest) := by
  cases elt <;> simp_all [phaseA]

theorem toL_ne_nil (p : List LObj) (x : LObj) (hp : p ≠ []) :
    toL p x ≠ LObj.nil := by
  cases p with
  | nil => exact absurd rfl hp
  | cons a as_ => simp [toL]

theorem measure_walked_ne (l : LObj) (a b : LObj)
    (hn : (measureFirstGroup l).2.2 = LObj.cons a b) :
    (measureFirstGroup l).2.1 ≠ [] := by
  match l with
  | LObj.cons elt rest =>
    by_cases he : elt = LObj.nil
    · subst he; simp [measureFirstGroup, phaseA]
    · simp only [measureFirstGroup, phaseA_not_nil_car elt rest he, List.nil_append]
      simp [phaseB, he]
  | LObj.nil => simp [measureFirstGroup, phaseA, phaseB] at hn
  | LObj.t => simp [measureFirstGroup, phaseA, phaseB] at hn
  | LObj.num n => simp [measureFirstGroup, phaseA, phaseB] at hn
  | LObj.sym s' => simp [measureFirstGroup, phaseA, phaseB] at hn
  | LObj.str s' => simp [measureFirstGroup, phaseA, phaseB] at hn

/-- Claim C1.  The claim states that when Phase C meets a boundary with
`size_so_far` above `undo_limit` but not above `undo_strong_limit`, the
truncated log retains everything up to *and including* that boundary.  The
code instead cuts at `last_boundary = prev` (src/undo.c:159), the cell
*before* the boundary: on `c1Log` (`[record 1, boundary, record 2]`, with
`size_so_far = 16` at the boundary, `undo_limit = 10`,
`undo_strong_limit = 1000`) the result is `[record 1]` — the boundary is
dropped, contradicting the claim (and the code's own comment at
src/undo.c:151-154, which says the lower threshold truncates *after* the
boundary). -/
theorem c1_undo_limit_cut_drops_boundary :
    (truncate_undo_list c1Config c1Log).undo_list = LObj.cons (LObj.num 1) LObj.nil ∧
    ((measureFirstGroup c1Log).1 : Int) > c1Config.undo_limit ∧
    ¬ ((measureFirstGroup c1Log).1 : Int) > c1Config.undo_strong_limit := by
  decide

/-- Claim C2, counterexample.  `c2Log` is a log whose single (first)
command group alone costs 16, strictly above `undo_strong_limit = 2`, and
which contains no boundary, so no candidate cut point is ever established
(`next` reaches nil with `last_boundary` still nil).  The claim says the
whole log is then discarded; the code instead leaves it unchanged
(`NILP (next)` at src/undo.c:180-181 wins before the clear-out branch at
src/undo.c:186-187 is consulted). -/
theorem c2_strong_overflow_not_discarded :
    ((measureFirstGroup c2Log).1 : Int) > c2Config.undo_strong_limit ∧
    (measureFirstGroup c2Log).2.2 = LObj.nil ∧
    (truncate_undo_list c2Config c2Log).undo_list = c2Log ∧
    c2Log ≠ LObj.nil := by
  decide

/-- Claim C2, amended: when the outer-limit callback does not take over,
`truncate_undo_list` replaces the log with the empty list exactly when the
log is already empty or the measuring walk stops on a non-nil, non-cons
tail (a dotted or disabled tail, the only way `last_boundary` can still be
nil at the resolution step with `next` non-nil); in particular a proper,
nil-terminated log whose first command group alone exceeds
`undo_strong_limit` is left unchanged, not discarded. -/
theorem c2_clear_iff_atom_tail (cfg : UndoConfig) (l : LObj)
    (h : (truncate_undo_list cfg l).handled = false) :
    ((truncate_undo_list cfg l).undo_list = LObj.nil
      ↔ (l = LObj.nil ∨ isAtom (measureFirstGroup l).2.2 = true)) := by
  have hcb : (outerCallback cfg (measureFirstGroup l).1).2 = false := h
  have hu : (truncate_undo_list cfg l).undo_list = truncCore cfg l := by
    simp only [truncate_undo_list]; rw [hcb]; simp
  rw [hu]
  cases hn : (measureFirstGroup l).2.2 with
  | nil =>
    have hr : truncCore cfg l = l := by
      simp only [truncCore]; rw [hn]; rfl
    rw [hr]; simp [isAtom]
  | t =>
    have hr : truncCore cfg l = LObj.nil := by
      simp only [truncCore]; rw [hn]; rfl
    rw [hr]; simp [isAtom]
  | num n =>
    have hr : truncCore cfg l = LObj.nil := by
      simp only [truncCore]; rw [hn]; rfl
    rw [hr]; simp [isAtom]
  | sym s' =>
    have hr : truncCore cfg l = LObj.nil := by
      simp only [truncCore]; rw [hn]; rfl
    rw [hr]; simp [isAtom]
  | str s' =>
    have hr : truncCore cfg l = LObj.nil := by
      simp only [truncCore]; rw [hn]; rfl
    rw [hr]; simp [isAtom]
  | cons a b =>
    have ha := measure_next_cons l a b hn
    subst ha
    have hlne : l ≠ LObj.nil := by
      intro hl; subst hl
      simp [measureFirstGroup, phaseA, phaseB] at hn
    have hpne := measure_walked_ne l LObj.nil b hn
    cases hp : phaseC cfg.undo_strong_limit cfg.undo_limit (measureFirstGroup l).1
        (LObj.cons LObj.nil b) with
    | nilEnd =>
      have hr : truncCore cfg l = l := by
        simp only [truncCore]; rw [hn]
        simp only [resolveTrunc]; rw [hp]
      rw [hr]; simp [isAtom]
    | cutPrev =>
      have hr : truncCore cfg l = toL (measureFirstGroup l).2.1 LObj.nil := by
        simp only [truncCore]; rw [hn]
        simp only [resolveTrunc]; rw [hp]
      rw [hr]
      simp [isAtom, hlne, toL_ne_nil _ _ hpne]
    | keep k =>
      have hr : truncCore cfg l = toL (measureFirstGroup l).2.1 k := by
        simp only [truncCore]; rw [hn]
        simp only [resolveTrunc]; rw [hp]
      rw [hr]
      simp [isAtom, hlne, toL_ne_nil _ _ hpne]

/-- Witness for `c2_clear_iff_atom_tail` at `c2Config`/`c2Log`. -/
theorem c2_clear_iff_atom_tail_witness :
    (truncate_undo_list c2Config c2Log).handled = false ∧
    ((truncate_undo_list c2Config c2Log).undo_list = LObj.nil
      ↔ (c2Log = LObj.nil ∨ isAtom (measureFirstGroup c2Log).2.2 = true)) :=
  ⟨by decide, c2_clear_iff_atom_tail c2Config c2Log (by decide)⟩

/-- Claim C3: calling `truncate_undo_list` on its own output (no
intervening modification of the log or the thresholds, and the outer-limit
callback not having taken over) yields the same log as calling it once. -/
theorem c3_truncate_idempotent (cfg : UndoConfig) (l : LObj)
    (h : (truncate_undo_list cfg l).handled = false) :
    (truncate_undo_list cfg ((truncate_undo_list cfg l).undo_list)).undo_list
      = (truncate_undo_list cfg l).undo_list := by
  have hcb : (outerCallback cfg (measureFirstGroup l).1).2 = false := h
  have h1 : (truncate_undo_list cfg l).undo_list = truncCore cfg l := by
    simp only [truncate_undo_list]; rw [hcb]; simp
  rw [h1]
  simp only [truncate_undo_list]
  by_cases h2 : (outerCallback cfg (measureFirstGroup (truncCore cfg l)).1).2
  · simp [h2]
  · simp only [h2, Bool.false_eq_true, if_false]
    exact truncCore_fixed cfg l

/-- Witness for `c3_truncate_idempotent` at `c3Config`/`c3Log` (a log the
first call actually cuts). -/
theorem c3_truncate_idempotent_witness :
    (truncate_undo_list c3Config c3Log).handled = false ∧
    (truncate_undo_list c3Config ((truncate_undo_list c3Config c3Log).undo_list)).undo_list
      = (truncate_undo_list c3Config c3Log).undo_list :=
  ⟨by decide, c3_truncate_idempotent c3Config c3Log (by decide)⟩

/-- Claim C4.  The claim states the cut point precedes a Phase C boundary
exactly when `size_so_far` strictly exceeds `undo_strong_limit`.  On
`c4Log` the boundary is met with `size_so_far = 16 ≤ undo_strong_limit`
(only `undo_limit` is exceeded), yet the result `[record 3]` excludes the
boundary — the cut precedes it anyway, because src/undo.c:159 sets
`last_boundary = prev` instead of the boundary cell itself. -/
theorem c4_soft_cut_precedes_boundary :
    (truncate_undo_list c4Config c4Log).undo_list = LObj.cons (LObj.num 3) LObj.nil ∧
    ((measureFirstGroup c4Log).1 : Int) ≤ c4Config.undo_strong_limit ∧
    ((measureFirstGroup c4Log).1 : Int) > c4Config.undo_limit := by
  decide

/-- Claim C5: whenever `undo_outer_limit` is an integer strictly below the
measured first-group cost and `undo_outer_limit_function` is non-nil, the
callback is invoked with exactly `size_so_far`; if it returns non-nil the
engine reports the truncation handled and returns the log untouched. -/
theorem c5_outer_limit_delegation (cfg : UndoConfig) (l : LObj) (lim : Int)
    (f : Int → Bool)
    (h1 : cfg.undo_outer_limit = some lim)
    (h2 : cfg.undo_outer_limit_function = some f)
    (h3 : ((measureFirstGroup l).1 : Int) > lim) :
    (truncate_undo_list cfg l).callback_arg = some ((measureFirstGroup l).1 : Int) ∧
    (f ((measureFirstGroup l).1 : Int) = true →
      (truncate_undo_list cfg l).handled = true ∧
      (truncate_undo_list cfg l).undo_list = l) := by
  refine ⟨?_, fun hf => ⟨?_, ?_⟩⟩
  · simp [truncate_undo_list, outerCallback, h1, h2, h3]
  · simp [truncate_undo_list, outerCallback, h1, h2, h3, hf]
  · simp [truncate_undo_list, outerCallback, h1, h2, h3, hf]

/-- Witness for `c5_outer_limit_delegation` at `c5Config`/`c5Log`. -/
theorem c5_outer_limit_delegation_witness :
    c5Config.undo_outer_limit = some 0 ∧
    c5Config.undo_outer_limit_function = some (fun _ => true) ∧
    ((measureFirstGroup c5Log).1 : Int) > 0 ∧
    ((truncate_undo_list c5Config c5Log).callback_arg
        = some ((measureFirstGroup c5Log).1 : Int) ∧
      ((fun _ => true : Int → Bool) ((measureFirstGroup c5Log).1 : Int) = true →
        (truncate_undo_list c5Config c5Log).handled = true ∧
        (truncate_undo_list c5Config c5Log).undo_list = c5Log)) :=
  ⟨rfl, rfl, by decide,
    c5_outer_limit_delegation c5Config c5Log 0 (fun _ => true) rfl rfl (by decide)⟩

/-- Claim C6: the contribution of every walked entry to `size_so_far`
decomposes as one link-cell cost, plus (for composite entries) the cost of
the entry's sub-cell, plus the cost of an embedded text payload — the
decomposition of the inline accounting at src/undo.c:108-116 and
src/undo.c:164-172 used by phases B and C through `entrySize`. -/
theorem c6_entry_cost_decomposition (elt : LObj) :
    entrySize elt = linkCellCost + subCellCost elt + textPayloadCost elt := by
  cases elt with
  | cons car cdr =>
    cases car <;>
      simp [entrySize, linkCellCost, subCellCost, textPayloadCost, Nat.add_assoc]
  | nil => rfl
  | t => rfl
  | num n => rfl
  | sym s' => rfl
  | str s' => rfl

/-- Claim C7: `record_property_change` on a buffer whose undo log is the
disabled sentinel `t` returns without creating any record or mutating any
log (src/undo.c:43-44); the whole editor state is unchanged, so the log
stays disabled. -/
theorem c7_disabled_noop (beg length : Int) (prop value : LObj) (buffer : Nat)
    (st : EditorState) (h : st.undo_lists buffer = LObj.t) :
    record_property_change beg length prop value buffer st = st := by
  simp [record_property_change, h]

/-- Witness for `c7_disabled_noop` at `c7State`. -/
theorem c7_disabled_noop_witness :
    c7State.undo_lists 0 = LObj.t ∧
    record_property_change 3 2 LObj.nil LObj.nil 0 c7State = c7State :=
  ⟨rfl, c7_disabled_noop 3 2 LObj.nil LObj.nil 0 c7State rfl⟩

/-- Claim C8: on an enabled log, when `MODIFF <= SAVE_MODIFF` the resulting
current-buffer log is the new property-change record immediately followed
(toward older entries) by the first-change marker prepended just before it
(src/undo.c:48-55); when `MODIFF > SAVE_MODIFF` no marker is added. -/
theorem c8_first_change_marker (beg length : Int) (prop value : LObj) (buffer : Nat)
    (st : EditorState) (hen : st.undo_lists buffer ≠ LObj.t) :
    (st.modiff st.current_buffer ≤ st.save_modiff st.current_buffer →
      (record_property_change beg length prop value buffer st).undo_lists
          st.current_buffer
        = LObj.cons (propertyChangeEntry beg length prop value)
            (LObj.cons firstChangeMarker (st.undo_lists st.current_buffer))) ∧
    (¬ st.modiff st.current_buffer ≤ st.save_modiff st.current_buffer →
      (record_property_change beg length prop value buffer st).undo_lists
          st.current_buffer
        = LObj.cons (propertyChangeEntry beg length prop value)
            (st.undo_lists st.current_buffer)) := by
  constructor <;> intro hm <;>
    simp [record_property_change, prepare_record, record_first_change, hen, hm]

/-- Witness for `c8_first_change_marker` at `c8State` (where
`MODIFF <= SAVE_MODIFF`, so the marker is inserted). -/
theorem c8_first_change_marker_witness :
    c8State.undo_lists 0 ≠ LObj.t ∧
    ((c8State.modiff c8State.current_buffer ≤ c8State.save_modiff c8State.current_buffer →
      (record_property_change 1 4 LObj.nil LObj.t 0 c8State).undo_lists
          c8State.current_buffer
        = LObj.cons (propertyChangeEntry 1 4 LObj.nil LObj.t)
            (LObj.cons firstChangeMarker (c8State.undo_lists c8State.current_buffer))) ∧
    (¬ c8State.modiff c8State.current_buffer ≤ c8State.save_modiff c8State.current_buffer →
      (record_property_change 1 4 LObj.nil LObj.t 0 c8State).undo_lists
          c8State.current_buffer
        = LObj.cons (propertyChangeEntry 1 4 LObj.nil LObj.t)
            (c8State.undo_lists c8State.current_buffer))) :=
  ⟨by decide, c8_first_change_marker 1 4 LObj.nil LObj.t 0 c8State (by decide)⟩

/-- Claim C9: on both exit paths of `truncate_undo_list_state` — the
outer-limit early return and normal completion — the garbage-collection
inhibition is released, the previously current buffer is restored, and no
state other than buffer `b`'s undo list is modified. -/
theorem c9_unwind_and_frame (cfg : UndoConfig) (b : Nat) (st : EditorState) :
    (truncate_undo_list_state cfg b st).gc_inhibit_depth = st.gc_inhibit_depth ∧
    (truncate_undo_list_state cfg b st).current_buffer = st.current_buffer ∧
    (truncate_undo_list_state cfg b st).modiff = st.modiff ∧
    (truncate_undo_list_state cfg b st).save_modiff = st.save_modiff ∧
    (truncate_undo_list_state cfg b st).other_fields = st.other_fields ∧
    ∀ i, i ≠ b → (truncate_undo_list_state cfg b st).undo_lists i = st.undo_lists i := by
  unfold truncate_undo_list_state unbind_to
  by_cases h : (truncate_undo_list cfg (st.undo_lists b)).handled = true
  · simp [h]
  · simp [h]
    intro i hi
    simp [hi]

/-- Witness for `c9_unwind_and_frame` at `c9Config`/`c9State`, buffer 0,
with the frame condition checked at buffer 1. -/
theorem c9_unwind_and_frame_witness :
    (truncate_undo_list_state c9Config 0 c9State).gc_inhibit_depth
      = c9State.gc_inhibit_depth ∧
    (truncate_undo_list_state c9Config 0 c9State).current_buffer
      = c9State.current_buffer ∧
    (truncate_undo_list_state c9Config 0 c9State).undo_lists 1
      = c9State.undo_lists 1 :=
  ⟨(c9_unwind_and_frame c9Config 0 c9State).1,
   (c9_unwind_and_frame c9Config 0 c9State).2.1,
   (c9_unwind_and_frame c9Config 0 c9State).2.2.2.2.2 1 (by decide)⟩

/-- Claim C10: `record_property_change` tests the disabled sentinel on its
argument buffer (src/undo.c:43) but prepends to the *current* buffer's log
(src/undo.c:54-55): when the argument buffer is distinct from the current
buffer, the argument buffer's log is unchanged and the record (preceded,
toward older entries, by the first-change marker when
`MODIFF <= SAVE_MODIFF`) lands in the current buffer's log. -/
theorem c10_record_lands_in_current_buffer (beg length : Int) (prop value : LObj)
    (buffer : Nat) (st : EditorState) (hen : st.undo_lists buffer ≠ LObj.t)
    (hne : buffer ≠ st.current_buffer) :
    (record_property_change beg length prop value buffer st).undo_lists buffer
      = st.undo_lists buffer ∧
    (record_property_change beg length prop value buffer st).undo_lists
        st.current_buffer
      = LObj.cons (propertyChangeEntry beg length prop value)
          (if st.modiff st.current_buffer ≤ st.save_modiff st.current_buffer
           then LObj.cons firstChangeMarker (st.undo_lists st.current_buffer)
           else st.undo_lists st.current_buffer) := by
  by_cases hm : st.modiff st.current_buffer ≤ st.save_modiff st.current_buffer <;>
    refine ⟨?_, ?_⟩ <;>
      simp [record_property_change, prepare_record, record_first_change, hen, hne, hm]

/-- Witness for `c10_record_lands_in_current_buffer` at `c10State` with
argument buffer 1 and current buffer 0. -/
theorem c10_record_lands_in_current_buffer_witness :
    c10State.undo_lists 1 ≠ LObj.t ∧ (1 : Nat) ≠ c10State.current_buffer ∧
    ((record_property_change 2 3 LObj.nil LObj.nil 1 c10State).undo_lists 1
        = c10State.undo_lists 1 ∧
      (record_property_change 2 3 LObj.nil LObj.nil 1 c10State).undo_lists
          c10State.current_buffer
        = LObj.cons (propertyChangeEntry 2 3 LObj.nil LObj.nil)
            (if c10State.modiff c10State.current_buffer
                ≤ c10State.save_modiff c10State.current_buffer
             then LObj.cons firstChangeMarker
                    (c10State.undo_lists c10State.current_buffer)
             else c10State.undo_lists c10State.current_buffer)) :=
  ⟨by decide, by decide,
    c10_record_lands_in_current_buffer 2 3 LObj.nil LObj.nil 1 c10State
      (by decide) (by decide)⟩

end Undo
